import Mathlib

/-!
Shallow embedding of the data-processing core of the AQI-vs-Public-Transport
repository (`src/data_processor.py`, class `DataProcessor`), together with
proofs about the behaviour of its operations.

Conventions of the embedding:
* A dataframe cell of a numeric column is `Option ℚ`: `none` models a pandas
  missing value (`NaN`), `some q` a present number.
* Dates are natural numbers (ordinal days); only their order and equality are
  ever used by the code under study.
* Python exceptions are modelled by `Except String`; the string carries the
  error class/message raised.
* The Pearson computation (`scipy.stats.pearsonr`) is modelled up to its input
  validation together with the exact paired data it receives: the coefficient
  and two-tailed p-value are deterministic real-valued functions (involving a
  square root) of that paired data, and every property verified here observes
  only which data is fed and which error is raised, so the embedding keeps the
  paired data itself in the rationals.
* `pandas.pivot_table` additionally sorts the pivoted mode columns
  lexicographically; the embedding keeps them in first-occurrence order, which
  no verified property observes (totals and lookups are by column name).
* The calendar-feature columns (`day_of_week`, `month`, `is_weekend`) are pure
  functions of the date, recomputed identically on both sides of the merge and
  deduplicated there; no verified property observes them, so they are not
  tracked.
* `sort_values` uses an unstable quicksort in pandas; the embedding uses a
  stable sort, and no verified property depends on the order of tied rows.
-/

/-- A cell of a numeric dataframe column: `none` is a pandas `NaN`. -/
abbrev Val := Option ℚ

/-- `Series.dropna()` followed by positional conversion to an array:
the present values of a column, in row order, with missing rows compressed
out (each column independently). -/
def dropna (xs : List Val) : List ℚ := xs.filterMap id

/-- Index and value of the nearest present entry at or below position `i`. -/
def prevSome (xs : List Val) : ℕ → Option (ℕ × ℚ)
  | 0 => (xs.getD 0 none).map (fun v => (0, v))
  | i + 1 =>
    match xs.getD (i + 1) none with
    | some v => some (i + 1, v)
    | none => prevSome xs i

/-- Search upward from position `i` (with explicit fuel) for a present entry. -/
def nextSomeAux (xs : List Val) : ℕ → ℕ → Option (ℕ × ℚ)
  | _, 0 => none
  | i, fuel + 1 =>
    match xs.getD i none with
    | some v => some (i, v)
    | none => nextSomeAux xs (i + 1) fuel

/-- Index and value of the nearest present entry at or above position `i`. -/
def nextSome (xs : List Val) (i : ℕ) : Option (ℕ × ℚ) :=
  nextSomeAux xs i (xs.length - i)

/-- `Series.interpolate(method='linear')` with pandas defaults: an interior
missing entry is replaced by positional linear interpolation between the
nearest present values on each side; a trailing gap is filled forward with the
last present value; a leading gap stays missing. -/
def interpolate (xs : List Val) : List Val :=
  (List.range xs.length).map (fun i =>
    match xs.getD i none with
    | some v => some v
    | none =>
      match prevSome xs i, nextSome xs i with
      | some (j, vj), some (k, vk) =>
          some (vj + (vk - vj) * (((i : ℚ) - (j : ℚ)) / ((k : ℚ) - (j : ℚ))))
      | some (_, vj), none => some vj
      | none, _ => none)

/-- `Series.median()`: the middle of the sorted present values (mean of the two
middles for an even count), `none` when there are no values at all. -/
def median (xs : List ℚ) : Option ℚ :=
  let s := List.insertionSort (· ≤ ·) xs
  if xs.length = 0 then none
  else if xs.length % 2 = 1 then some (s.getD (xs.length / 2) 0)
  else some ((s.getD (xs.length / 2 - 1) 0 + s.getD (xs.length / 2) 0) / 2)

/-- `Series.fillna(v)`: replace missing entries by `v`; filling with `NaN`
(`v = none`, the median of an empty series) leaves the column unchanged. -/
def fillna (xs : List Val) (v : Option ℚ) : List Val :=
  match v with
  | none => xs
  | some c => xs.map (fun x => some (x.getD c))

/-- The per-column cleaning loop of `process_aqi_data` (lines 39-44):
interpolate, then fill whatever is still missing with the column median. -/
def fillMissing (xs : List Val) : List Val :=
  let interp := interpolate xs
  fillna interp (median (dropna interp))

/-- The labels of `pd.cut` in `process_aqi_data`. -/
inductive AQICategory
  | good
  | moderate
  | unhealthySensitive
  | unhealthy
  | veryUnhealthy
  | hazardous
deriving DecidableEq

/-- `pd.cut(aqi, bins=[0,50,100,150,200,300,500], include_lowest=True)` applied
to one cell: right-closed bins with the lowest bound included; a value outside
every bin (negative, or above 500) and a missing value both yield `NaN`. -/
def aqiCategory (x : Val) : Option AQICategory :=
  match x with
  | none => none
  | some q =>
    if 0 ≤ q ∧ q ≤ 50 then some .good
    else if 50 < q ∧ q ≤ 100 then some .moderate
    else if 100 < q ∧ q ≤ 150 then some .unhealthySensitive
    else if 150 < q ∧ q ≤ 200 then some .unhealthy
    else if 200 < q ∧ q ≤ 300 then some .veryUnhealthy
    else if 300 < q ∧ q ≤ 500 then some .hazardous
    else none

/-- A raw AQI dataframe: a date column plus named numeric columns. -/
structure RawTable where
  dates : List ℕ
  cols : List (String × List Val)
deriving DecidableEq

/-- The declared numeric columns of `process_aqi_data` (line 37). -/
def numericCols : List String := ["AQI", "PM2.5", "PM10", "NO2", "Ozone"]

/-- Column lookup by name (`df[name]`, guarded by `name in df.columns`). -/
def getCol (cols : List (String × List Val)) (name : String) :
    Option (List Val) :=
  (cols.find? (fun p => p.1 == name)).map Prod.snd

/-- The `for col in numeric_cols: if col in aqi_df.columns` loop: clean every
declared numeric column that is present, leave the rest alone. -/
def fillCols (cols : List (String × List Val)) : List (String × List Val) :=
  cols.map (fun p =>
    if numericCols.contains p.1 then (p.1, fillMissing p.2) else p)

/-- The enriched AQI table produced by `process_aqi_data`. -/
structure AqiProcessed where
  dates : List ℕ
  cols : List (String × List Val)
  category : List (Option AQICategory)
deriving DecidableEq

/-- `DataProcessor.process_aqi_data`: clean the declared numeric columns, then
derive `AQI_Category` from the (cleaned) `AQI` column.  Reading `aqi_df['AQI']`
raises a `KeyError` when no `AQI` column exists; no other failure path exists
in the function. -/
def process_aqi_data (t : RawTable) : Except String AqiProcessed :=
  let cols := fillCols t.cols
  match getCol cols "AQI" with
  | none => .error "KeyError: AQI"
  | some aqiVals => .ok ⟨t.dates, cols, aqiVals.map aqiCategory⟩

/-- One raw transport row: a (date, mode, passenger count) event. -/
structure TEvent where
  date : ℕ
  mode : String
  passengers : ℚ
deriving DecidableEq

/-- The row index of the pivot produced by `pivot_table(index=['date', ...])`:
distinct dates, sorted ascending. -/
def pivotDates (evs : List TEvent) : List ℕ :=
  List.insertionSort (· ≤ ·) ((evs.map TEvent.date).dedup)

/-- The pivoted mode columns: the distinct mode strings occurring in the
input. -/
def pivotModes (evs : List TEvent) : List String :=
  (evs.map TEvent.mode).dedup

/-- One cell of the pivot with `aggfunc='sum'`: the sum of the passenger
counts of the events for this (date, mode), `NaN` when no event exists. -/
def cell (evs : List TEvent) (d : ℕ) (m : String) : Val :=
  let hits := evs.filter (fun e => e.date == d && e.mode == m)
  if hits.isEmpty then none else some ((hits.map TEvent.passengers).sum)

/-- Numeric addition of two cells: `NaN + x = NaN` (numpy semantics). -/
def addVal : Val → Val → Val
  | some a, some b => some (a + b)
  | _, _ => none

/-- `transport_pivot.get(name, 0)`: the column when present, otherwise the
scalar `0` broadcast over the rows. -/
def getModeCol (cols : List (String × List Val)) (name : String) (n : ℕ) :
    List Val :=
  match getCol cols name with
  | some c => c
  | none => List.replicate n (some 0)

/-- The pivoted transport table produced by `process_transport_data`. -/
structure TransportProcessed where
  dates : List ℕ
  modeCols : List (String × List Val)
  total : List Val
deriving DecidableEq

/-- `DataProcessor.process_transport_data`: pivot events to one row per date
and one column per mode (summing duplicates), then
`total_passengers = pivot.get('bus', 0) + pivot.get('metro', 0)`. -/
def process_transport_data (evs : List TEvent) : TransportProcessed :=
  let ds := pivotDates evs
  let ms := pivotModes evs
  let cols := ms.map (fun m => (m, ds.map (fun d => cell evs d m)))
  let bus := getModeCol cols "bus" ds.length
  let metro := getModeCol cols "metro" ds.length
  ⟨ds, cols, List.zipWith addVal bus metro⟩

/-- A row of the processed AQI table, for the merge. -/
structure ARow where
  date : ℕ
  cells : List Val
  cat : Option AQICategory
deriving DecidableEq

/-- A row of the pivoted transport table, for the merge. -/
structure TRow where
  date : ℕ
  cells : List Val
  total : Val
deriving DecidableEq

/-- The processed AQI table viewed row-wise (cells aligned with its column
names). -/
def aqiRows (r : AqiProcessed) : List ARow :=
  r.dates.enum.map (fun p =>
    ⟨p.2, r.cols.map (fun c => c.2.getD p.1 none), r.category.getD p.1 none⟩)

/-- The pivoted transport table viewed row-wise. -/
def tRows (r : TransportProcessed) : List TRow :=
  r.dates.enum.map (fun p =>
    ⟨p.2, r.modeCols.map (fun c => c.2.getD p.1 none), r.total.getD p.1 none⟩)

/-- `pd.merge(..., on='date', how='inner')`: every pair of rows with equal
dates, in left-row-major order. -/
def innerJoin (as : List ARow) (ts : List TRow) : List (ARow × TRow) :=
  as.flatMap (fun r => (ts.filter (fun s => s.date == r.date)).map
    (fun s => (r, s)))

/-- The merged table: the AQI-side and mode column names, and the joined rows
(sorted by date). -/
structure MergedOut where
  aqiHeader : List String
  modeHeader : List String
  rows : List (ARow × TRow)
deriving DecidableEq

/-- `DataProcessor.merge_datasets`: process both inputs, inner-join on `date`,
sort ascending by date.  (The duplicated calendar columns that the join
suffixes and the code then reconciles and drops are pure functions of the date
and are not tracked, see the header comment.) -/
def merge_datasets (a : RawTable) (evs : List TEvent) :
    Except String MergedOut := do
  let ap ← process_aqi_data a
  let tp := process_transport_data evs
  let rows := List.insertionSort (fun x y => x.1.date ≤ y.1.date)
    (innerJoin (aqiRows ap) (tRows tp))
  pure ⟨ap.cols.map Prod.fst, tp.modeCols.map Prod.fst, rows⟩

/-- The date column of the merged table. -/
def mergedDates (m : MergedOut) : List ℕ := m.rows.map (fun r => r.1.date)

/-- The transport-side metric columns of `calculate_correlations` (line 128). -/
def transportCols : List String := ["bus", "metro", "total_passengers"]

/-- The two value sequences the code feeds `stats.pearsonr` for one metric
pair: each column's missing entries dropped independently
(`merged_df[a].dropna(), merged_df[b].dropna()`). -/
def codeFeed (xs ys : List Val) : List ℚ × List ℚ := (dropna xs, dropna ys)

/-- `scipy.stats.pearsonr`, modelled up to its input validation: it raises a
`ValueError` when the two arrays have different lengths, and when they have
fewer than 2 entries; otherwise the coefficient and two-tailed p-value are
deterministic functions of the positional pairing of the two arrays, which the
embedding returns. -/
def scipy_pearsonr (xs ys : List ℚ) : Except String (List (ℚ × ℚ)) :=
  if xs.length ≠ ys.length then
    .error "ValueError: x and y must have the same length"
  else if xs.length < 2 then
    .error "ValueError: x and y must have length at least 2"
  else .ok (xs.zip ys)

/-- A table handed to the statistics operations: a date column, named numeric
columns, and optionally the `AQI_Category` column. -/
structure MTable where
  dates : List ℕ
  cols : List (String × List Val)
  category : Option (List (Option AQICategory))
deriving DecidableEq

/-- The metric pairs `calculate_correlations` iterates over: every present
AQI-side column crossed with every present transport-side column, in loop
order. -/
def corrPairs (t : MTable) : List (String × String) :=
  let acs := numericCols.filter (fun c => (getCol t.cols c).isSome)
  let tcs := transportCols.filter (fun c => (getCol t.cols c).isSome)
  acs.flatMap (fun a => tcs.map (fun b => (a, b)))

/-- The body of `calculate_correlations` (lines 126-149): for each metric pair
feed the independently-dropna'd columns to `pearsonr` and record the result;
a raised error aborts the whole loop (Python exception semantics). -/
def corrOf (t : MTable) :
    Except String (List ((String × String) × List (ℚ × ℚ))) :=
  (corrPairs t).mapM (fun p => do
    let f := codeFeed ((getCol t.cols p.1).getD []) ((getCol t.cols p.2).getD [])
    let fed ← scipy_pearsonr f.1 f.2
    pure (p, fed))

/-- `DataProcessor.calculate_correlations(self, merged_df=None)`: fall back to
the cached `self.merged_data` when no argument is given, raise `ValueError`
when that is also absent, otherwise compute from the chosen table. -/
def calculate_correlations (self : Option MTable) (arg : Option MTable) :
    Except String (List ((String × String) × List (ℚ × ℚ))) :=
  match (match arg with | some t => some t | none => self) with
  | none => .error "ValueError: No merged data available. Run merge_datasets first."
  | some t => corrOf t

/-- Per-column descriptive statistics.  pandas' `std()` is the square root of
the sample variance; the square root is irrational, so the embedding carries
the sample variance `varSample` (the reported standard deviation is its square
root, `NaN` below 2 observations, like pandas with `ddof=1`). -/
structure ColStats where
  mean : Val
  med : Val
  varSample : Val
  min : Val
  max : Val
deriving DecidableEq

/-- `Series.mean()`: mean of the present values, `NaN` when there are none. -/
def colMean (xs : List Val) : Val :=
  let v := dropna xs
  if v.length = 0 then none else some (v.sum / v.length)

/-- `Series.std()` squared (sample variance, `ddof=1`): `NaN` below 2 present
values. -/
def colVar (xs : List Val) : Val :=
  let v := dropna xs
  if v.length < 2 then none
  else
    let m := v.sum / v.length
    some ((v.map (fun x => (x - m) ^ 2)).sum / ((v.length : ℚ) - 1))

/-- `Series.min()` over the present values (`NaN` when there are none). -/
def colMin (xs : List Val) : Val := (dropna xs).min?

/-- `Series.max()` over the present values (`NaN` when there are none). -/
def colMax (xs : List Val) : Val := (dropna xs).max?

/-- The five statistics `get_summary_statistics` records per column. -/
def colStats (xs : List Val) : ColStats :=
  ⟨colMean xs, median (dropna xs), colVar xs, colMin xs, colMax xs⟩

/-- `Series.value_counts().to_dict()` on the category column: occurrence
counts of the present categories, most frequent first (ties in
first-occurrence order). -/
def valueCounts (cats : List (Option AQICategory)) :
    List (AQICategory × ℕ) :=
  let present := cats.filterMap id
  List.insertionSort (fun a b => b.2 ≤ a.2)
    (present.dedup.map (fun c => (c, present.count c)))

/-- The summary object built by `get_summary_statistics`. -/
structure Summary where
  total_days : ℕ
  date_start : Option ℕ
  date_end : Option ℕ
  aqi_stats : List (String × ColStats)
  transport_stats : List (String × ColStats)
  category_distribution : Option (List (AQICategory × ℕ))
deriving DecidableEq

/-- The body of `get_summary_statistics` (lines 159-197). -/
def summaryOf (t : MTable) : Summary :=
  ⟨t.dates.length,
   t.dates.min?,
   t.dates.max?,
   (numericCols.filter (fun c => (getCol t.cols c).isSome)).map
     (fun c => (c, colStats ((getCol t.cols c).getD []))),
   (transportCols.filter (fun c => (getCol t.cols c).isSome)).map
     (fun c => (c, colStats ((getCol t.cols c).getD []))),
   t.category.map valueCounts⟩

/-- `DataProcessor.get_summary_statistics(self, merged_df=None)`: same
cache-fallback shape as `calculate_correlations`. -/
def get_summary_statistics (self : Option MTable) (arg : Option MTable) :
    Except String Summary :=
  match (match arg with | some t => some t | none => self) with
  | none => .error "ValueError: No merged data available. Run merge_datasets first."
  | some t => .ok (summaryOf t)

/-- `Series.shift(k)`: `k` leading missing entries, the rest of the column
shifted down, the tail truncated. -/
def shiftCol (k : ℕ) (xs : List Val) : List Val :=
  List.replicate (min k xs.length) none ++ xs.take (xs.length - k)

/-- `Series.rolling(window=w, min_periods=1).mean()`: at each row, the mean of
the present values among the last `w` rows up to and including it (`NaN` only
when that window holds no present value). -/
def rollingMean (w : ℕ) (xs : List Val) : List Val :=
  (List.range xs.length).map (fun i =>
    let win := (xs.take (i + 1)).drop (i + 1 - w)
    let v := dropna win
    if v.length = 0 then none else some (v.sum / v.length))

/-- `merged_df.sort_values('date').reset_index(drop=True)` on a whole table:
permute the rows into ascending date order. -/
def sortByDate (t : MTable) : MTable :=
  let perm := List.insertionSort (fun p q => p.2 ≤ q.2) t.dates.enum
  let idx := perm.map Prod.fst
  ⟨perm.map Prod.snd,
   t.cols.map (fun c => (c.1, idx.map (fun i => c.2.getD i none))),
   t.category.map (fun cs => idx.map (fun i => cs.getD i none))⟩

/-- The lag offsets of `add_lag_features` (default argument). -/
def lagDays : List ℕ := [1, 3, 7]

/-- The rolling windows of `add_lag_features` (line 216). -/
def rollingWindows : List ℕ := [3, 7, 14]

/-- `DataProcessor.add_lag_features` on an explicit table: sort the rows by
date (line 208), then append the lag columns for `AQI` and `total_passengers`
and the rolling-average columns.  Reading a missing `AQI` or
`total_passengers` column raises a `KeyError`. -/
def add_lag_features (t : MTable) : Except String MTable :=
  let s := sortByDate t
  match getCol s.cols "AQI", getCol s.cols "total_passengers" with
  | some aqiC, some totC =>
    let lagCols := lagDays.flatMap (fun lag =>
      [("AQI_lag_" ++ toString lag, shiftCol lag aqiC),
       ("total_passengers_lag_" ++ toString lag, shiftCol lag totC)])
    let rollCols := rollingWindows.flatMap (fun w =>
      [("AQI_rolling_" ++ toString w ++ "d", rollingMean w aqiC),
       ("total_passengers_rolling_" ++ toString w ++ "d", rollingMean w totC)])
    .ok ⟨s.dates, s.cols ++ lagCols ++ rollCols, s.category⟩
  | _, _ => .error "KeyError"

/-- Modelled from the spec ("pairwise-complete ... the two value sequences fed
to the coefficient stay row-aligned"): the row-aligned pairs of the rows in
which BOTH columns are present. -/
def pairwiseCompletePairs (xs ys : List Val) : List (ℚ × ℚ) :=
  (xs.zip ys).filterMap (fun p =>
    match p.1, p.2 with
    | some a, some b => some (a, b)
    | _, _ => none)

/-- Modelled from the spec ("compute `total_passengers` as the row-wise sum
across all mode columns", "missing mode/date combination ⇒ 0, not missing"):
per pivot row, the sum over ALL mode columns with a missing cell counted
as 0. -/
def specTotalPassengers (evs : List TEvent) : List Val :=
  (pivotDates evs).map (fun d =>
    some (((pivotModes evs).map (fun m => (cell evs d m).getD 0)).sum))

/-- The merged table of the C1 counterexample: the two columns have their
missing entries in different rows. -/
def exT1 : MTable :=
  ⟨[0, 1, 2],
   [("AQI", [some 1, none, some 3]), ("bus", [none, some 2, some 3])],
   none⟩

/-- C1 counterexample: on `exT1` the code feeds `pearsonr` the two columns
dropna'd independently, pairing row 0's AQI value with row 1's bus value
(`[(1,2),(3,3)]`), while the pairwise-complete deletion the claim describes
selects exactly the one row where both columns are present (`[(3,3)]`).  The
correlation is therefore not computed over the paired rows in which both
columns are non-missing. -/
theorem C1_counterexample :
    corrOf exT1 = .ok [(("AQI", "bus"), [(1, 2), (3, 3)])] ∧
    pairwiseCompletePairs [some 1, none, some 3] [none, some 2, some 3]
      = [(3, 3)] ∧
    [((1 : ℚ), (2 : ℚ)), (3, 3)] ≠ [((3 : ℚ), (3 : ℚ))] :=
  ⟨rfl, rfl, by decide⟩

/-- C5 counterexample: an AQI value above 500 is not categorized as Hazardous
but silently receives a missing category, and a negative AQI value is not
rejected as invalid input: processing completes normally and also assigns it
a missing category. -/
theorem C5_counterexample :
    aqiCategory (some 501) = none ∧
    aqiCategory (some (-1)) = none ∧
    process_aqi_data ⟨[0], [("AQI", [some (-1)])]⟩ =
      .ok ⟨[0], [("AQI", [some (-1)])], [none]⟩ :=
  ⟨by decide, by decide, rfl⟩

/-- C5 amended: every AQI value outside `[0, 500]` (negative or above 500)
receives a missing category from the binning step; no error is raised and no
category is assigned. -/
theorem C5_amended (q : ℚ) (h : q < 0 ∨ 500 < q) : aqiCategory (some q) = none := by
  simp only [aqiCategory]
  rcases h with h | h
  · rw [if_neg (fun hc => absurd hc.1 (not_le.2 h)),
      if_neg (fun hc => by rcases hc with ⟨c1, _⟩; linarith),
      if_neg (fun hc => by rcases hc with ⟨c1, _⟩; linarith),
      if_neg (fun hc => by rcases hc with ⟨c1, _⟩; linarith),
      if_neg (fun hc => by rcases hc with ⟨c1, _⟩; linarith),
      if_neg (fun hc => by rcases hc with ⟨c1, _⟩; linarith)]
  · rw [if_neg (fun hc => by rcases hc with ⟨_, c2⟩; linarith),
      if_neg (fun hc => by rcases hc with ⟨_, c2⟩; linarith),
      if_neg (fun hc => by rcases hc with ⟨_, c2⟩; linarith),
      if_neg (fun hc => by rcases hc with ⟨_, c2⟩; linarith),
      if_neg (fun hc => by rcases hc with ⟨_, c2⟩; linarith),
      if_neg (fun hc => by rcases hc with ⟨_, c2⟩; linarith)]

/-- C5 amended, witness at `q = 501`. -/
theorem C5_amended_witness :
    ((501 : ℚ) < 0 ∨ 500 < (501 : ℚ)) ∧ aqiCategory (some 501) = none :=
  ⟨Or.inr (by norm_num), C5_amended 501 (Or.inr (by norm_num))⟩

/-- C4: on the domain `[0, 500]` the binning follows the fixed right-closed,
lowest-bound-inclusive breakpoints: `[0,50] → Good`, `(50,100] → Moderate`,
`(100,150] → Unhealthy for Sensitive`, `(150,200] → Unhealthy`,
`(200,300] → Very Unhealthy`, `(300,500] → Hazardous`. -/
theorem C4_category_breakpoints (q : ℚ) :
    (0 ≤ q → q ≤ 50 → aqiCategory (some q) = some AQICategory.good) ∧
    (50 < q → q ≤ 100 → aqiCategory (some q) = some AQICategory.moderate) ∧
    (100 < q → q ≤ 150 → aqiCategory (some q) = some AQICategory.unhealthySensitive) ∧
    (150 < q → q ≤ 200 → aqiCategory (some q) = some AQICategory.unhealthy) ∧
    (200 < q → q ≤ 300 → aqiCategory (some q) = some AQICategory.veryUnhealthy) ∧
    (300 < q → q ≤ 500 → aqiCategory (some q) = some AQICategory.hazardous) := by
  simp only [aqiCategory]
  refine ⟨fun h1 h2 => ?_, fun h1 h2 => ?_, fun h1 h2 => ?_, fun h1 h2 => ?_,
    fun h1 h2 => ?_, fun h1 h2 => ?_⟩
  · rw [if_pos ⟨h1, h2⟩]
  · rw [if_neg (fun hc => by rcases hc with ⟨_, c2⟩; linarith),
      if_pos ⟨h1, h2⟩]
  · rw [if_neg (fun hc => by rcases hc with ⟨_, c2⟩; linarith),
      if_neg (fun hc => by rcases hc with ⟨_, c2⟩; linarith),
      if_pos ⟨h1, h2⟩]
  · rw [if_neg (fun hc => by rcases hc with ⟨_, c2⟩; linarith),
      if_neg (fun hc => by rcases hc with ⟨_, c2⟩; linarith),
      if_neg (fun hc => by rcases hc with ⟨_, c2⟩; linarith),
      if_pos ⟨h1, h2⟩]
  · rw [if_neg (fun hc => by rcases hc with ⟨_, c2⟩; linarith),
      if_neg (fun hc => by rcases hc with ⟨_, c2⟩; linarith),
      if_neg (fun hc => by rcases hc with ⟨_, c2⟩; linarith),
      if_neg (fun hc => by rcases hc with ⟨_, c2⟩; linarith),
      if_pos ⟨h1, h2⟩]
  · rw [if_neg (fun hc => by rcases hc with ⟨_, c2⟩; linarith),
      if_neg (fun hc => by rcases hc with ⟨_, c2⟩; linarith),
      if_neg (fun hc => by rcases hc with ⟨_, c2⟩; linarith),
      if_neg (fun hc => by rcases hc with ⟨_, c2⟩; linarith),
      if_neg (fun hc => by rcases hc with ⟨_, c2⟩; linarith),
      if_pos ⟨h1, h2⟩]

/-- C4, witness at the boundary values named by the spec:
`0 → Good`, `50 → Good`, `51 → Moderate`, `500 → Hazardous`. -/
theorem C4_category_breakpoints_witness :
    aqiCategory (some 0) = some AQICategory.good ∧
    aqiCategory (some 50) = some AQICategory.good ∧
    aqiCategory (some 51) = some AQICategory.moderate ∧
    aqiCategory (some 500) = some AQICategory.hazardous :=
  ⟨(C4_category_breakpoints 0).1 (by norm_num) (by norm_num),
   (C4_category_breakpoints 50).1 (by norm_num) (by norm_num),
   (C4_category_breakpoints 51).2.1 (by norm_num) (by norm_num),
   (C4_category_breakpoints 500).2.2.2.2.2 (by norm_num) (by norm_num)⟩

/-- C6 counterexample: a table whose declared numeric column `PM2.5` has no
usable value at all (every entry missing) is processed WITHOUT any
`DataValidationError` (no such class exists in the code): the call returns
normally and the returned table still contains the missing values in that
column. -/
theorem C6_counterexample :
    process_aqi_data ⟨[0], [("AQI", [some 10]), ("PM2.5", [none])]⟩ =
      .ok ⟨[0], [("AQI", [some 10]), ("PM2.5", [none])],
        [some AQICategory.good]⟩ := rfl

/-- C9: `calculate_correlations` and `get_summary_statistics` are pure in an
explicitly supplied table: the internal `merged_data` cache state (any cache,
or none) does not influence the result. -/
theorem C9_stats_pure (s1 s2 : Option MTable) (t : MTable) :
    calculate_correlations s1 (some t) = calculate_correlations s2 (some t) ∧
    get_summary_statistics s1 (some t) = get_summary_statistics s2 (some t) :=
  ⟨rfl, rfl⟩

/-- C10: with no table argument and no populated cache, both statistics
operations raise `ValueError` instead of returning a result. -/
theorem C10_no_cache_error :
    calculate_correlations none none =
      .error "ValueError: No merged data available. Run merge_datasets first." ∧
    get_summary_statistics none none =
      .error "ValueError: No merged data available. Run merge_datasets first." :=
  ⟨rfl, rfl⟩

/-- The one-row merged table of the C7 counterexample. -/
def exT7 : MTable :=
  ⟨[0], [("AQI", [some 1]), ("bus", [some 2]), ("metro", [some 5])], none⟩

/-- C7 counterexample: on a merged table with a single row (fewer than 2
paired observations for every pair) the computation neither raises an
`InsufficientDataError` (no such class exists in the code) nor skips the
under-populated pair while returning the others: the underlying library
`ValueError` propagates and aborts the whole computation, returning no
entry at all. -/
theorem C7_counterexample :
    corrOf exT7 = .error "ValueError: x and y must have length at least 2" :=
  rfl

/-- The raw transport events of the C2 counterexample: date 1 has a bus event
but no metro event. -/
def evs2 : List TEvent := [⟨0, "bus", 1⟩, ⟨0, "metro", 2⟩, ⟨1, "bus", 3⟩]

/-- C2 counterexample: in the processed transport table for `evs2`, the
`total_passengers` entry of the second row (date 1, which has a bus event but
no metro event) is missing — the `NaN` pivot cell propagates through the
addition — whereas the row-wise sum over the mode columns present with a
missing combination contributing 0, as the claim states, is a present
value. -/
theorem C2_counterexample :
    (process_transport_data evs2).total.getD 1 (some 0) = none ∧
    ((specTotalPassengers evs2).getD 1 none).isSome = true :=
  ⟨rfl, rfl⟩

/-- The unsorted merged table of the C8 counterexample. -/
def exT8 : MTable :=
  ⟨[1, 0],
   [("AQI", [some 10, some 20]), ("total_passengers", [some 1, some 2])],
   none⟩

/-- C8 counterexample: `add_lag_features` DOES re-sort.  Fed a table whose
rows are in date order `[1, 0]`, it returns rows in date order `[0, 1]`, with
the `AQI` column permuted accordingly — the output rows are not in the input's
relative order. -/
theorem C8_counterexample :
    (add_lag_features exT8).toOption.map MTable.dates = some [0, 1] ∧
    (add_lag_features exT8).toOption.map (fun r => getCol r.cols "AQI")
      = some (some [some 20, some 10]) ∧
    exT8.dates = [1, 0] :=
  ⟨rfl, rfl, rfl⟩

/-- Helper: on columns with no missing entries, `dropna` keeps every value. -/
theorem dropna_length_of_no_missing (xs : List Val)
    (hx : ∀ x ∈ xs, x.isSome = true) : (dropna xs).length = xs.length := by
  induction xs with
  | nil => rfl
  | cons x xs ih =>
    obtain ⟨a, rfl⟩ := Option.isSome_iff_exists.1 (hx x (List.mem_cons_self x xs))
    have htail := ih (fun u hu => hx u (List.mem_cons_of_mem _ hu))
    simp only [dropna, List.filterMap_cons, id, List.length_cons] at *
    rw [htail]

/-- Helper: when neither column has a missing entry, pairing the two
independently dropna'd columns positionally gives exactly the
pairwise-complete selection. -/
theorem dropna_zip_eq_pairwiseComplete (xs : List Val) :
    ∀ (ys : List Val), (∀ x ∈ xs, x.isSome = true) →
    (∀ y ∈ ys, y.isSome = true) →
    (dropna xs).zip (dropna ys) = pairwiseCompletePairs xs ys := by
  induction xs with
  | nil =>
    intro ys _ _
    simp [dropna, pairwiseCompletePairs]
  | cons x xs ih =>
    intro ys hx hy
    cases ys with
    | nil => simp [dropna, pairwiseCompletePairs, List.zip_nil_right]
    | cons y ys =>
      obtain ⟨a, rfl⟩ := Option.isSome_iff_exists.1 (hx x (List.mem_cons_self x xs))
      obtain ⟨b, rfl⟩ := Option.isSome_iff_exists.1 (hy y (List.mem_cons_self y ys))
      simp only [dropna, List.filterMap_cons, id, List.zip_cons_cons,
        pairwiseCompletePairs]
      refine congrArg (List.cons (a, b)) ?_
      exact ih ys (fun u hu => hx u (List.mem_cons_of_mem _ hu))
        (fun u hu => hy u (List.mem_cons_of_mem _ hu))

/-- C1 amended: the computation feeds `pearsonr` the two columns with their
missing entries dropped independently from each column (`codeFeed`), not the
pairwise-complete selection; the positional pairing `pearsonr` then applies
coincides with the pairwise-complete row-aligned selection of the claim
whenever neither column has a missing entry (and in general only when the two
columns are missing in the same rows). -/
theorem C1_amended (xs ys : List Val)
    (hx : ∀ x ∈ xs, x.isSome = true) (hy : ∀ y ∈ ys, y.isSome = true)
    (hlen : xs.length = ys.length) (hn : 2 ≤ xs.length) :
    scipy_pearsonr (codeFeed xs ys).1 (codeFeed xs ys).2 =
      .ok (pairwiseCompletePairs xs ys) := by
  have l1 : (dropna xs).length = xs.length := dropna_length_of_no_missing xs hx
  have l2 : (dropna ys).length = ys.length := dropna_length_of_no_missing ys hy
  simp only [codeFeed, scipy_pearsonr]
  rw [if_neg (by rw [l1, l2, hlen]; exact fun hc => hc rfl),
    if_neg (by rw [l1]; omega)]
  exact congrArg Except.ok (dropna_zip_eq_pairwiseComplete xs ys hx hy)

/-- C1 amended, witness on two complete two-row columns. -/
theorem C1_amended_witness :
    ((∀ x ∈ [some (1 : ℚ), some 2], x.isSome = true) ∧
     (∀ y ∈ [some (3 : ℚ), some 4], y.isSome = true) ∧
     ([some (1 : ℚ), some 2].length = [some (3 : ℚ), some 4].length) ∧
     2 ≤ [some (1 : ℚ), some 2].length) ∧
    scipy_pearsonr (codeFeed [some 1, some 2] [some 3, some 4]).1
        (codeFeed [some 1, some 2] [some 3, some 4]).2 =
      .ok (pairwiseCompletePairs [some 1, some 2] [some 3, some 4]) :=
  ⟨⟨by decide, by decide, by decide, by decide⟩,
   C1_amended [some 1, some 2] [some 3, some 4]
     (by decide) (by decide) (by decide) (by decide)⟩

/-- Helper: one unfolding step of the column lookup. -/
theorem getCol_cons (a : String) (b : List Val) (l : List (String × List Val))
    (name : String) :
    getCol ((a, b) :: l) name =
      if (a == name) = true then some b else getCol l name := by
  by_cases h : (a == name) = true
  · rw [if_pos h]
    unfold getCol
    rw [@List.find?_cons_of_pos _ (fun q => q.1 == name) (a, b) l h]
    rfl
  · rw [if_neg h]
    unfold getCol
    rw [@List.find?_cons_of_neg _ (fun q => q.1 == name) (a, b) l h]

/-- Helper: `getCol` after the cleaning pass is the cleaned original column
(cleaned exactly when the name is a declared numeric column). -/
theorem getCol_fillCols (cols : List (String × List Val)) (name : String) :
    getCol (fillCols cols) name = (getCol cols name).map
      (fun c => if numericCols.contains name then fillMissing c else c) := by
  induction cols with
  | nil => rfl
  | cons p cols ih =>
    obtain ⟨nm, c⟩ := p
    show getCol ((if numericCols.contains nm then (nm, fillMissing c)
        else (nm, c)) :: fillCols cols) name
      = (getCol ((nm, c) :: cols) name).map
        (fun c2 => if numericCols.contains name then fillMissing c2 else c2)
    by_cases hnc : numericCols.contains nm = true
    · rw [if_pos hnc, getCol_cons, getCol_cons]
      by_cases hb : (nm == name) = true
      · rw [if_pos hb, if_pos hb]
        have hc : numericCols.contains name = true := eq_of_beq hb ▸ hnc
        show some (fillMissing c)
          = some (if numericCols.contains name then fillMissing c else c)
        rw [if_pos hc]
      · rw [if_neg hb, if_neg hb]
        exact ih
    · rw [if_neg hnc, getCol_cons, getCol_cons]
      by_cases hb : (nm == name) = true
      · rw [if_pos hb, if_pos hb]
        have hc : ¬numericCols.contains name = true := by
          rw [← eq_of_beq hb]
          exact hnc
        show some c
          = some (if numericCols.contains name then fillMissing c else c)
        rw [if_neg hc]
      · rw [if_neg hb, if_neg hb]
        exact ih

/-- Helper: in an all-missing column every positional default read is
missing. -/
theorem getD_all_none (xs : List Val) (hnone : ∀ x ∈ xs, x = none) :
    ∀ j, xs.getD j none = none := by
  induction xs with
  | nil => intro j; cases j <;> rfl
  | cons x xs ih =>
    intro j
    cases j with
    | zero => exact hnone x (List.mem_cons_self x xs)
    | succ j => exact ih (fun u hu => hnone u (List.mem_cons_of_mem _ hu)) j

/-- Helper: no present entry is found at or below any position of an
all-missing column. -/
theorem prevSome_all_none (xs : List Val) (hnone : ∀ x ∈ xs, x = none) :
    ∀ i, prevSome xs i = none := by
  intro i
  induction i with
  | zero =>
    simp only [prevSome]
    rw [getD_all_none xs hnone 0]
    rfl
  | succ i ih =>
    simp only [prevSome]
    rw [getD_all_none xs hnone (i + 1)]
    exact ih

/-- Helper: no present entry is found at or above any position of an
all-missing column. -/
theorem nextSomeAux_all_none (xs : List Val) (hnone : ∀ x ∈ xs, x = none) :
    ∀ fuel i, nextSomeAux xs i fuel = none := by
  intro fuel
  induction fuel with
  | zero => intro i; rfl
  | succ fuel ih =>
    intro i
    simp only [nextSomeAux]
    rw [getD_all_none xs hnone i]
    exact ih (i + 1)

/-- Helper: interpolation leaves an all-missing column unchanged. -/
theorem interpolate_all_none (xs : List Val) (hnone : ∀ x ∈ xs, x = none) :
    interpolate xs = xs := by
  apply List.ext_getElem
  · simp [interpolate]
  · intro i h1 h2
    simp only [interpolate, List.getElem_map, List.getElem_range]
    rw [getD_all_none xs hnone i, prevSome_all_none xs hnone i]
    exact (hnone xs[i] (List.getElem_mem h2)).symm

/-- Helper: the cleaning pass is the identity on an all-missing column: the
interpolation fills nothing and the median of no values is `NaN`, which
`fillna` fills nothing with. -/
theorem fillMissing_all_none (xs : List Val) (hnone : ∀ x ∈ xs, x = none) :
    fillMissing xs = xs := by
  unfold fillMissing
  rw [interpolate_all_none xs hnone]
  show fillna xs (median (dropna xs)) = xs
  have hdrop : dropna xs = [] := by
    simp only [dropna, List.filterMap_eq_nil_iff, id]
    exact hnone
  rw [hdrop]
  rfl

/-- C6 amended: processing never raises a `DataValidationError` (no such
class exists in the code): provided an `AQI` column is present, a declared
numeric column with no usable values at all is passed through with every
entry still missing, and an entirely absent declared column is silently
skipped. -/
theorem C6_amended (t : RawTable) (name : String) (col : List Val)
    (hA : (getCol (fillCols t.cols) "AQI").isSome = true)
    (hcol : getCol t.cols name = some col)
    (hnone : ∀ x ∈ col, x = none) :
    ∃ r, process_aqi_data t = .ok r ∧ getCol r.cols name = some col := by
  obtain ⟨v, hv⟩ := Option.isSome_iff_exists.1 hA
  refine ⟨⟨t.dates, fillCols t.cols, v.map aqiCategory⟩, ?_, ?_⟩
  · simp only [process_aqi_data]
    rw [hv]
  · show getCol (fillCols t.cols) name = some col
    rw [getCol_fillCols, hcol]
    simp only [Option.map]
    refine congrArg some ?_
    split
    · exact fillMissing_all_none col hnone
    · rfl

/-- C6 amended, witness on a table whose `PM2.5` column is entirely
missing. -/
theorem C6_amended_witness :
    ((getCol (fillCols (RawTable.mk [0]
        [("AQI", [some 10]), ("PM2.5", [none])]).cols) "AQI").isSome = true ∧
     getCol (RawTable.mk [0]
        [("AQI", [some 10]), ("PM2.5", [none])]).cols "PM2.5" = some [none] ∧
     (∀ x ∈ ([none] : List Val), x = none)) ∧
    ∃ r, process_aqi_data (RawTable.mk [0]
        [("AQI", [some 10]), ("PM2.5", [none])]) = .ok r ∧
      getCol r.cols "PM2.5" = some [none] :=
  ⟨⟨by decide, by decide, by decide⟩,
   C6_amended (RawTable.mk [0] [("AQI", [some 10]), ("PM2.5", [none])])
     "PM2.5" [none] (by decide) (by decide) (by decide)⟩

/-- C7 amended: when the first metric pair reached by the loop has
independently-dropna'd columns of equal length below 2, the computation
neither raises an `InsufficientDataError` (no such class exists in the code)
nor skips the pair: the underlying library `ValueError` propagates, aborting
the whole computation with no partial result. -/
theorem C7_amended (t : MTable) (p : String × String)
    (rest : List (String × String)) (x y : List Val)
    (hp : corrPairs t = p :: rest)
    (hx : getCol t.cols p.1 = some x) (hy : getCol t.cols p.2 = some y)
    (hlen : (dropna x).length = (dropna y).length)
    (hlt : (dropna x).length < 2) :
    corrOf t = .error "ValueError: x and y must have length at least 2" := by
  have hfeed : scipy_pearsonr (dropna x) (dropna y)
      = .error "ValueError: x and y must have length at least 2" := by
    unfold scipy_pearsonr
    rw [if_neg (fun hc => hc hlen), if_pos hlt]
  unfold corrOf
  rw [hp, List.mapM_cons]
  simp only [hx, hy, Option.getD_some, codeFeed]
  rw [hfeed]
  rfl

/-- The one-row merged table of the C7 amended witness. -/
def exT7b : MTable := ⟨[0], [("AQI", [some 1]), ("bus", [some 2])], none⟩

/-- C7 amended, witness on a one-row merged table. -/
theorem C7_amended_witness :
    (corrPairs exT7b = [("AQI", "bus")] ∧
     getCol exT7b.cols "AQI" = some [some 1] ∧
     getCol exT7b.cols "bus" = some [some 2] ∧
     (dropna [some (1 : ℚ)]).length = (dropna [some (2 : ℚ)]).length ∧
     (dropna [some (1 : ℚ)]).length < 2) ∧
    corrOf exT7b = .error "ValueError: x and y must have length at least 2" :=
  ⟨⟨rfl, rfl, rfl, rfl, by decide⟩,
   C7_amended exT7b ("AQI", "bus") [] [some 1] [some 2]
     rfl rfl rfl rfl (by decide)⟩

/-- C8 amended: `add_lag_features` re-sorts its input: whenever it succeeds,
its output rows are the input rows permuted into ascending date order (it
establishes, rather than assumes, the ascending order). -/
theorem C8_amended (t : MTable)
    (h1 : (getCol (sortByDate t).cols "AQI").isSome = true)
    (h2 : (getCol (sortByDate t).cols "total_passengers").isSome = true) :
    ∃ r, add_lag_features t = .ok r ∧ r.dates = (sortByDate t).dates ∧
      List.Sorted (· ≤ ·) (sortByDate t).dates ∧
      (sortByDate t).dates.Perm t.dates := by
  obtain ⟨ac, hac⟩ := Option.isSome_iff_exists.1 h1
  obtain ⟨tc, htc⟩ := Option.isSome_iff_exists.1 h2
  have hok : add_lag_features t = .ok ⟨(sortByDate t).dates,
      (sortByDate t).cols ++ (lagDays.flatMap (fun lag =>
        [("AQI_lag_" ++ toString lag, shiftCol lag ac),
         ("total_passengers_lag_" ++ toString lag, shiftCol lag tc)])) ++
      (rollingWindows.flatMap (fun w =>
        [("AQI_rolling_" ++ toString w ++ "d", rollingMean w ac),
         ("total_passengers_rolling_" ++ toString w ++ "d", rollingMean w tc)])),
      (sortByDate t).category⟩ := by
    simp only [add_lag_features]
    rw [hac, htc]
  refine ⟨_, hok, rfl, ?_, ?_⟩
  · show List.Sorted (· ≤ ·)
      ((List.insertionSort (fun pq qq => pq.2 ≤ qq.2) t.dates.enum).map Prod.snd)
    have hs := @List.sorted_insertionSort (ℕ × ℕ) (fun pq qq => pq.2 ≤ qq.2) _
      ⟨fun a b => Nat.le_total a.2 b.2⟩ ⟨fun a b c => Nat.le_trans⟩ t.dates.enum
    exact List.pairwise_map.2 hs
  · show ((List.insertionSort (fun pq qq => pq.2 ≤ qq.2) t.dates.enum).map
      Prod.snd).Perm t.dates
    have hperm := (List.perm_insertionSort
      (fun pq qq : ℕ × ℕ => pq.2 ≤ qq.2) t.dates.enum).map Prod.snd
    rw [List.enum_map_snd] at hperm
    exact hperm

/-- C8 amended, witness on the date-reversed two-row table. -/
theorem C8_amended_witness :
    ((getCol (sortByDate exT8).cols "AQI").isSome = true ∧
     (getCol (sortByDate exT8).cols "total_passengers").isSome = true) ∧
    ∃ r, add_lag_features exT8 = .ok r ∧ r.dates = (sortByDate exT8).dates ∧
      List.Sorted (· ≤ ·) (sortByDate exT8).dates ∧
      (sortByDate exT8).dates.Perm exT8.dates :=
  ⟨⟨by decide, by decide⟩, C8_amended exT8 (by decide) (by decide)⟩

/-- Helper: the date column of the pivoted transport table, read off its
rows. -/
theorem tRows_dates (r : TransportProcessed) :
    (tRows r).map TRow.date = r.dates := by
  unfold tRows
  rw [List.map_map]
  show r.dates.enum.map Prod.snd = r.dates
  exact List.enum_map_snd r.dates

/-- Helper: the date column of the processed AQI table, read off its rows. -/
theorem aqiRows_dates (r : AqiProcessed) :
    (aqiRows r).map ARow.date = r.dates := by
  unfold aqiRows
  rw [List.map_map]
  show r.dates.enum.map Prod.snd = r.dates
  exact List.enum_map_snd r.dates

/-- Helper: the pivot's date index has no duplicates. -/
theorem pivotDates_nodup (evs : List TEvent) : (pivotDates evs).Nodup :=
  (List.perm_insertionSort _ _).nodup_iff.2
    (List.nodup_dedup (evs.map TEvent.date))

/-- Helper: a date is in the pivot's index exactly when some event has it. -/
theorem pivotDates_mem (evs : List TEvent) (d : ℕ) :
    d ∈ pivotDates evs ↔ ∃ e ∈ evs, e.date = d := by
  unfold pivotDates
  rw [(List.perm_insertionSort _ _).mem_iff, List.mem_dedup, List.mem_map]

/-- Helper: with duplicate-free dates on the right table, filtering it for
one date yields that date at most once. -/
theorem filter_date_of_nodup (ts : List TRow) (d : ℕ)
    (hnd : (ts.map TRow.date).Nodup) :
    (ts.filter (fun s => s.date == d)).map TRow.date =
      if d ∈ ts.map TRow.date then [d] else [] := by
  induction ts with
  | nil => simp
  | cons s ts ih =>
    simp only [List.map_cons, List.nodup_cons] at hnd
    obtain ⟨hnotin, hnd2⟩ := hnd
    rw [List.filter_cons, List.map_cons]
    by_cases hb : (s.date == d) = true
    · have hd : s.date = d := eq_of_beq hb
      subst hd
      rw [if_pos hb]
      have hnone : ts.filter (fun s2 => s2.date == s.date) = [] := by
        rw [List.filter_eq_nil_iff]
        intro a ha hba
        exact hnotin (List.mem_map.2 ⟨a, ha, eq_of_beq hba⟩)
      rw [hnone]
      rw [if_pos (List.mem_cons_self s.date (ts.map TRow.date))]
      rfl
    · rw [if_neg hb, ih hnd2]
      have hne : s.date ≠ d := fun hc => hb (beq_iff_eq.2 hc)
      by_cases hc : d ∈ ts.map TRow.date
      · rw [if_pos hc, if_pos (List.mem_cons_of_mem _ hc)]
      · rw [if_neg hc,
          if_neg (fun hm => (List.mem_cons.1 hm).elim (fun h => hne h.symm) hc)]

/-- Helper: the date column of the inner join is the left date column
filtered to the dates present on the right (each left row matches at most one
right row when the right dates are duplicate-free). -/
theorem innerJoin_dates (as : List ARow) (ts : List TRow)
    (hnd : (ts.map TRow.date).Nodup) :
    (innerJoin as ts).map (fun r => r.1.date) =
      (as.map ARow.date).filter (fun d => decide (d ∈ ts.map TRow.date)) := by
  induction as with
  | nil => rfl
  | cons r as ih =>
    simp only [innerJoin, List.flatMap_cons, List.map_append, List.map_cons] at *
    rw [List.filter_cons, ih]
    have h1 : ((ts.filter (fun s => s.date == r.date)).map
          (fun s => (r, s))).map (fun x => x.1.date)
        = (ts.filter (fun s => s.date == r.date)).map (fun _ => r.date) := by
      rw [List.map_map]
      rfl
    rw [h1, List.map_const']
    have h2 := congrArg List.length (filter_date_of_nodup ts r.date hnd)
    rw [List.length_map] at h2
    by_cases hc : r.date ∈ ts.map TRow.date
    · rw [if_pos hc] at h2
      rw [h2, if_pos (by rw [decide_eq_true_eq]; exact hc)]
      rfl
    · rw [if_neg hc] at h2
      rw [h2, if_neg (by rw [decide_eq_true_eq]; exact hc)]
      rfl

/-- C3: when the AQI side has at most one record per date (and its `AQI`
column is present so that processing succeeds), the merged result contains
exactly the dates in the intersection of the two inputs' date sets, each
exactly once, sorted ascending. -/
theorem C3_join_dates (a : RawTable) (evs : List TEvent)
    (hnd : a.dates.Nodup)
    (hA : (getCol (fillCols a.cols) "AQI").isSome = true) :
    ∃ m, merge_datasets a evs = .ok m ∧
      List.Sorted (· ≤ ·) (mergedDates m) ∧ (mergedDates m).Nodup ∧
      (∀ d, d ∈ mergedDates m ↔ d ∈ a.dates ∧ ∃ e ∈ evs, e.date = d) := by
  obtain ⟨v, hv⟩ := Option.isSome_iff_exists.1 hA
  have hproc : process_aqi_data a
      = .ok ⟨a.dates, fillCols a.cols, v.map aqiCategory⟩ := by
    simp only [process_aqi_data]
    rw [hv]
  have hndT : ((tRows (process_transport_data evs)).map TRow.date).Nodup := by
    rw [tRows_dates]
    exact pivotDates_nodup evs
  have hjoin := innerJoin_dates
    (aqiRows ⟨a.dates, fillCols a.cols, v.map aqiCategory⟩)
    (tRows (process_transport_data evs)) hndT
  rw [aqiRows_dates, tRows_dates] at hjoin
  rw [show (AqiProcessed.mk a.dates (fillCols a.cols) (v.map aqiCategory)).dates
    = a.dates from rfl] at hjoin
  rw [show (process_transport_data evs).dates = pivotDates evs from rfl] at hjoin
  refine ⟨⟨(fillCols a.cols).map Prod.fst,
    (process_transport_data evs).modeCols.map Prod.fst,
    List.insertionSort (fun x y => x.1.date ≤ y.1.date)
      (innerJoin (aqiRows ⟨a.dates, fillCols a.cols, v.map aqiCategory⟩)
        (tRows (process_transport_data evs)))⟩, ?_, ?_, ?_, ?_⟩
  · simp only [merge_datasets]
    rw [hproc]
    rfl
  · show List.Sorted (· ≤ ·)
      ((List.insertionSort (fun x y => x.1.date ≤ y.1.date)
        (innerJoin (aqiRows ⟨a.dates, fillCols a.cols, v.map aqiCategory⟩)
          (tRows (process_transport_data evs)))).map (fun r => r.1.date))
    have hs := @List.sorted_insertionSort (ARow × TRow)
      (fun x y => x.1.date ≤ y.1.date) _
      ⟨fun x y => Nat.le_total x.1.date y.1.date⟩
      ⟨fun x y z => Nat.le_trans⟩
      (innerJoin (aqiRows ⟨a.dates, fillCols a.cols, v.map aqiCategory⟩)
        (tRows (process_transport_data evs)))
    exact List.pairwise_map.2 hs
  · show ((List.insertionSort (fun x y => x.1.date ≤ y.1.date)
      (innerJoin (aqiRows ⟨a.dates, fillCols a.cols, v.map aqiCategory⟩)
        (tRows (process_transport_data evs)))).map (fun r => r.1.date)).Nodup
    have hperm := (List.perm_insertionSort (fun x y : ARow × TRow =>
      x.1.date ≤ y.1.date)
      (innerJoin (aqiRows ⟨a.dates, fillCols a.cols, v.map aqiCategory⟩)
        (tRows (process_transport_data evs)))).map (fun r => r.1.date)
    rw [(hperm.nodup_iff), hjoin]
    exact hnd.filter _
  · intro d
    show d ∈ (List.insertionSort (fun x y => x.1.date ≤ y.1.date)
      (innerJoin (aqiRows ⟨a.dates, fillCols a.cols, v.map aqiCategory⟩)
        (tRows (process_transport_data evs)))).map (fun r => r.1.date) ↔ _
    have hperm := (List.perm_insertionSort (fun x y : ARow × TRow =>
      x.1.date ≤ y.1.date)
      (innerJoin (aqiRows ⟨a.dates, fillCols a.cols, v.map aqiCategory⟩)
        (tRows (process_transport_data evs)))).map (fun r => r.1.date)
    rw [hperm.mem_iff, hjoin, List.mem_filter, decide_eq_true_eq,
      pivotDates_mem]

/-- C3, witness on a two-date AQI table (given out of order) and a transport
table sharing both dates. -/
theorem C3_join_dates_witness :
    ((RawTable.mk [1, 0] [("AQI", [some 80, some 120])]).dates.Nodup ∧
     (getCol (fillCols (RawTable.mk [1, 0]
       [("AQI", [some 80, some 120])]).cols) "AQI").isSome = true) ∧
    ∃ m, merge_datasets (RawTable.mk [1, 0] [("AQI", [some 80, some 120])])
        [⟨0, "bus", 100⟩, ⟨1, "metro", 200⟩] = .ok m ∧
      List.Sorted (· ≤ ·) (mergedDates m) ∧ (mergedDates m).Nodup ∧
      (∀ d, d ∈ mergedDates m ↔
        d ∈ (RawTable.mk [1, 0] [("AQI", [some 80, some 120])]).dates ∧
        ∃ e ∈ [TEvent.mk 0 "bus" 100, TEvent.mk 1 "metro" 200], e.date = d) :=
  ⟨⟨by decide, by decide⟩,
   C3_join_dates (RawTable.mk [1, 0] [("AQI", [some 80, some 120])])
     [⟨0, "bus", 100⟩, ⟨1, "metro", 200⟩] (by decide) (by decide)⟩

/-- Helper: column lookup in the pivot's constructed column list. -/
theorem getCol_map_self (ms : List String) (f : String → List Val)
    (m : String) :
    getCol (ms.map (fun x => (x, f x))) m =
      if m ∈ ms then some (f m) else none := by
  induction ms with
  | nil => rfl
  | cons x ms ih =>
    show getCol ((x, f x) :: ms.map (fun x => (x, f x))) m = _
    rw [getCol_cons]
    by_cases hb : (x == m) = true
    · have hx : x = m := eq_of_beq hb
      subst hx
      rw [if_pos hb, if_pos (List.mem_cons_self x ms)]
    · have hx : x ≠ m := fun hc => hb (beq_iff_eq.2 hc)
      rw [if_neg hb, ih]
      by_cases hm : m ∈ ms
      · rw [if_pos hm, if_pos (List.mem_cons_of_mem _ hm)]
      · rw [if_neg hm,
          if_neg (fun hc => (List.mem_cons.1 hc).elim (fun h => hx h.symm) hm)]

/-- Helper: the sum over a duplicate-free list drawn from a two-element
universe is the sum of the two indicator terms. -/
theorem sum_map_two (g : String → ℚ) (a b : String) (hab : a ≠ b) :
    ∀ (ms : List String), ms.Nodup → (∀ m ∈ ms, m = a ∨ m = b) →
    (ms.map g).sum = (if a ∈ ms then g a else 0) +
      (if b ∈ ms then g b else 0) := by
  intro ms
  induction ms with
  | nil =>
    intro _ _
    simp
  | cons x ms ih =>
    intro hnd hsub
    rw [List.nodup_cons] at hnd
    obtain ⟨hx, hnd2⟩ := hnd
    have hsum := ih hnd2 (fun m hm => hsub m (List.mem_cons_of_mem _ hm))
    rcases hsub x (List.mem_cons_self x ms) with rfl | rfl
    · rw [List.map_cons, List.sum_cons, hsum, if_neg hx,
        if_pos (List.mem_cons_self x ms)]
      have hbx : (b ∈ x :: ms) ↔ (b ∈ ms) := by
        rw [List.mem_cons]
        exact or_iff_right (fun hc => hab hc.symm)
      by_cases hbm : b ∈ ms
      · rw [if_pos hbm, if_pos (hbx.2 hbm)]
        ring
      · rw [if_neg hbm, if_neg (fun hc => hbm (hbx.1 hc))]
        ring
    · rw [List.map_cons, List.sum_cons, hsum, if_neg hx,
        if_pos (List.mem_cons_self x ms)]
      have hax : (a ∈ x :: ms) ↔ (a ∈ ms) := by
        rw [List.mem_cons]
        exact or_iff_right hab
      by_cases ham : a ∈ ms
      · rw [if_pos ham, if_pos (hax.2 ham)]
        ring
      · rw [if_neg ham, if_neg (fun hc => ham (hax.1 hc))]
        ring

/-- Helper: zipping a list against a same-length constant list applies the
function to the constant on the right. -/
theorem zipWith_replicate_right (f : Val → Val → Val) (c : Val)
    (l : List Val) :
    List.zipWith f l (List.replicate l.length c) = l.map (fun a => f a c) := by
  induction l with
  | nil => rfl
  | cons x l ih =>
    rw [List.length_cons, List.replicate_succ, List.zipWith_cons_cons,
      List.map_cons, ih]

/-- Helper: zipping a same-length constant list against a list applies the
function to the constant on the left. -/
theorem zipWith_replicate_left (f : Val → Val → Val) (c : Val)
    (l : List Val) :
    List.zipWith f (List.replicate l.length c) l = l.map (fun a => f c a) := by
  induction l with
  | nil => rfl
  | cons x l ih =>
    rw [List.length_cons, List.replicate_succ, List.zipWith_cons_cons,
      List.map_cons, ih]

/-- C2 amended: `total_passengers` is the cell-wise sum of the `bus` and
`metro` columns ONLY — an entirely absent mode column contributes the
broadcast scalar 0, a missing single cell makes the row's total missing, and
any other mode column is ignored.  Consequently the claimed row-wise sum over
all mode columns is obtained exactly when the only modes are bus and metro
and every date has an event of every mode occurring in the table. -/
theorem C2_amended (evs : List TEvent)
    (hmodes : ∀ e ∈ evs, e.mode = "bus" ∨ e.mode = "metro")
    (hcells : ∀ d ∈ pivotDates evs, ∀ m ∈ pivotModes evs,
      (cell evs d m).isSome = true) :
    (process_transport_data evs).total = specTotalPassengers evs := by
  have hmm : ∀ m ∈ pivotModes evs, m = "bus" ∨ m = "metro" := by
    intro m hm
    unfold pivotModes at hm
    rw [List.mem_dedup, List.mem_map] at hm
    obtain ⟨e, he, rfl⟩ := hm
    exact hmodes e he
  have hndm : (pivotModes evs).Nodup := List.nodup_dedup _
  have hbm : ("bus" : String) ≠ "metro" := by decide
  have hcols : ∀ m : String,
      getCol ((pivotModes evs).map (fun x =>
        (x, (pivotDates evs).map (fun d => cell evs d x)))) m
      = if m ∈ pivotModes evs
        then some ((pivotDates evs).map (fun d => cell evs d m)) else none :=
    fun m => getCol_map_self (pivotModes evs) _ m
  have hbusCol : getModeCol ((pivotModes evs).map (fun m =>
      (m, (pivotDates evs).map (fun d => cell evs d m)))) "bus"
      (pivotDates evs).length
    = if "bus" ∈ pivotModes evs
      then (pivotDates evs).map (fun d => cell evs d "bus")
      else List.replicate (pivotDates evs).length (some 0) := by
    unfold getModeCol
    rw [hcols "bus"]
    by_cases hb : "bus" ∈ pivotModes evs
    · rw [if_pos hb, if_pos hb]
    · rw [if_neg hb, if_neg hb]
  have hmetroCol : getModeCol ((pivotModes evs).map (fun m =>
      (m, (pivotDates evs).map (fun d => cell evs d m)))) "metro"
      (pivotDates evs).length
    = if "metro" ∈ pivotModes evs
      then (pivotDates evs).map (fun d => cell evs d "metro")
      else List.replicate (pivotDates evs).length (some 0) := by
    unfold getModeCol
    rw [hcols "metro"]
    by_cases hm : "metro" ∈ pivotModes evs
    · rw [if_pos hm, if_pos hm]
    · rw [if_neg hm, if_neg hm]
  show List.zipWith addVal
      (getModeCol ((pivotModes evs).map (fun m =>
        (m, (pivotDates evs).map (fun d => cell evs d m)))) "bus"
        (pivotDates evs).length)
      (getModeCol ((pivotModes evs).map (fun m =>
        (m, (pivotDates evs).map (fun d => cell evs d m)))) "metro"
        (pivotDates evs).length)
    = specTotalPassengers evs
  rw [hbusCol, hmetroCol]
  by_cases hb : "bus" ∈ pivotModes evs <;>
    by_cases hm : "metro" ∈ pivotModes evs
  · rw [if_pos hb, if_pos hm, List.zipWith_map, List.zipWith_same]
    unfold specTotalPassengers
    apply List.map_congr_left
    intro d hd
    obtain ⟨vb, hvb⟩ := Option.isSome_iff_exists.1 (hcells d hd "bus" hb)
    obtain ⟨vm, hvm⟩ := Option.isSome_iff_exists.1 (hcells d hd "metro" hm)
    rw [hvb, hvm]
    show some (vb + vm)
      = some (((pivotModes evs).map (fun m => (cell evs d m).getD 0)).sum)
    rw [sum_map_two (fun m => (cell evs d m).getD 0) "bus" "metro" hbm
      (pivotModes evs) hndm hmm]
    rw [if_pos hb, if_pos hm, hvb, hvm]
    rfl
  · rw [if_pos hb, if_neg hm,
      show (pivotDates evs).length
        = ((pivotDates evs).map (fun d => cell evs d "bus")).length from
        (List.length_map _ _).symm,
      zipWith_replicate_right, List.map_map]
    unfold specTotalPassengers
    apply List.map_congr_left
    intro d hd
    obtain ⟨vb, hvb⟩ := Option.isSome_iff_exists.1 (hcells d hd "bus" hb)
    show addVal (cell evs d "bus") (some 0)
      = some (((pivotModes evs).map (fun m => (cell evs d m).getD 0)).sum)
    rw [hvb]
    rw [sum_map_two (fun m => (cell evs d m).getD 0) "bus" "metro" hbm
      (pivotModes evs) hndm hmm]
    rw [if_pos hb, if_neg hm, hvb]
    rfl
  · rw [if_neg hb, if_pos hm,
      show (pivotDates evs).length
        = ((pivotDates evs).map (fun d => cell evs d "metro")).length from
        (List.length_map _ _).symm,
      zipWith_replicate_left, List.map_map]
    unfold specTotalPassengers
    apply List.map_congr_left
    intro d hd
    obtain ⟨vm, hvm⟩ := Option.isSome_iff_exists.1 (hcells d hd "metro" hm)
    show addVal (some 0) (cell evs d "metro")
      = some (((pivotModes evs).map (fun m => (cell evs d m).getD 0)).sum)
    rw [hvm]
    rw [sum_map_two (fun m => (cell evs d m).getD 0) "bus" "metro" hbm
      (pivotModes evs) hndm hmm]
    rw [if_neg hb, if_pos hm, hvm]
    rfl
  · have hms : pivotModes evs = [] := by
      cases hq : pivotModes evs with
      | nil => rfl
      | cons m ms2 =>
        have hmem : m ∈ pivotModes evs := by
          rw [hq]
          exact List.mem_cons_self m ms2
        rcases hmm m hmem with rfl | rfl
        · exact absurd hmem hb
        · exact absurd hmem hm
    have hevs : evs = [] := by
      unfold pivotModes at hms
      rw [List.dedup_eq_nil, List.map_eq_nil_iff] at hms
      exact hms
    subst hevs
    rfl

/-- C2 amended, witness: one date carrying both a bus and a metro event. -/
theorem C2_amended_witness :
    ((∀ e ∈ [TEvent.mk 0 "bus" 1, TEvent.mk 0 "metro" 2],
        e.mode = "bus" ∨ e.mode = "metro") ∧
     (∀ d ∈ pivotDates [TEvent.mk 0 "bus" 1, TEvent.mk 0 "metro" 2],
        ∀ m ∈ pivotModes [TEvent.mk 0 "bus" 1, TEvent.mk 0 "metro" 2],
        (cell [TEvent.mk 0 "bus" 1, TEvent.mk 0 "metro" 2] d m).isSome
          = true)) ∧
    (process_transport_data [TEvent.mk 0 "bus" 1, TEvent.mk 0 "metro" 2]).total
      = specTotalPassengers [TEvent.mk 0 "bus" 1, TEvent.mk 0 "metro" 2] :=
  ⟨⟨by decide, by decide⟩,
   C2_amended [TEvent.mk 0 "bus" 1, TEvent.mk 0 "metro" 2]
     (by decide) (by decide)⟩
